import Mathlib

/-!
Verification of the tipset / chain-state access core of a Filecoin node
(cpp-filecoin sources): the tipset creator and its block ordering, the
tipset accessors, the API handlers built on tipset contexts, the winning
PoSt sector selection, and the retrieval-market query responder.

The definitions are shallow embeddings of the C++ sources:
  * core/primitives/tipset/tipset.cpp (TipsetCreator, Tipset),
  * core/api/make.cpp (tipsetContext, getLookbackTipSetForRound,
    getSectorsForWinningPoSt, ChainGetTipSetByHeight, ChainGetMessage,
    StateCall),
  * core/markets/retrieval/provider/query_responder/query_responder_impl.cpp
    (QueryResponderImpl::getItemStatus).
CIDs, addresses and state roots are modelled as natural numbers; fallible
code returns Except.
-/

/-- Ticket VRF bytes (the ticket of a block header). -/
abbrev Bytes := List Nat

/-- Modelled from the spec: `ticket::compare` (its source file,
core/primitives/ticket, is not among the sources under study) is the byte
lexicographic comparison of the two tickets, "sorted ascending by ticket
byte comparison (stable total order)". -/
def bytesCompare : Bytes → Bytes → Ordering
  | [], [] => .eq
  | [], _ :: _ => .lt
  | _ :: _, [] => .gt
  | a :: as, b :: bs =>
    if a < b then .lt else if b < a then .gt else bytesCompare as bs

/-- TipsetError from core/primitives/tipset/tipset.hpp. -/
inductive TipsetError
  | NO_BLOCKS
  | MISMATCHING_HEIGHTS
  | MISMATCHING_PARENTS
  | TICKET_HAS_NO_VALUE
  | TICKETS_COLLISION
  | BLOCK_ORDER_FAILURE
deriving DecidableEq, Repr

/-- BlockHeader: the fields the tipset code reads. The ticket is optional
(genesis has none); CIDs are numbers. -/
structure BlockHeader where
  miner : Nat
  ticket : Option Bytes
  parents : List Nat
  parent_weight : Int
  parent_state_root : Nat
  parent_message_receipts : Nat
  messages : Nat
  height : Nat
  timestamp : Nat
deriving DecidableEq, Repr

/-- `hdr.ticket.value()` as the C++ reads it inside the creator (the creator
asserts presence beforehand; absence reads as the empty byte string). -/
def BlockHeader.ticketBytes (h : BlockHeader) : Bytes := h.ticket.getD []

/-- TipsetCreator::canExpandTipset: checks the candidate header against the
first already-accepted header; an empty creator accepts anything. -/
def canExpandTipset (blks : List BlockHeader) (hdr : BlockHeader) :
    Except TipsetError Unit :=
  match blks with
  | [] => .ok ()
  | first :: _ =>
    if hdr.ticket.isNone then .error .TICKET_HAS_NO_VALUE
    else if hdr.height ≠ first.height then .error .MISMATCHING_HEIGHTS
    else if hdr.parents ≠ first.parents then .error .MISMATCHING_PARENTS
    else .ok ()

/-- The scan loop of TipsetCreator::expandTipset: walk `blks_` comparing the
new ticket against each stored ticket; `compare == 0` is a collision,
`compare < 0` continues, `compare > 0` breaks. Returns the break index
(the list's length when the loop runs off the end). -/
def scanPos (t : Bytes) : List BlockHeader → Except TipsetError Nat
  | [] => .ok 0
  | b :: bs =>
    match bytesCompare t b.ticketBytes with
    | .eq => .error .TICKETS_COLLISION
    | .lt => (scanPos t bs).map (· + 1)
    | .gt => .ok 0

/-- TipsetCreator::expandTipset(cid, hdr): empty creator stores the header
directly; otherwise the scan gives `idx`, and the header is appended when
`++it == blks_.end()` (the break happened at the last element) and inserted
at `idx` otherwise (also when the scan ran off the end, since incrementing
the end iterator does not yield the end iterator). -/
def expandTipset (blks : List BlockHeader) (cids : List Nat) (cid : Nat)
    (hdr : BlockHeader) : Except TipsetError (List BlockHeader × List Nat) :=
  match blks with
  | [] => .ok ([hdr], [cid])
  | _ :: _ =>
    match scanPos hdr.ticketBytes blks with
    | .error e => .error e
    | .ok idx =>
      if idx + 1 = blks.length then
        .ok (blks ++ [hdr], cids ++ [cid])
      else
        .ok (blks.insertIdx idx hdr, cids.insertIdx idx cid)

/-- The loop of Tipset::create(vector of headers): canExpandTipset then
expandTipset for each header in order, the cid computed by the (opaque)
cbor hash `cidOf`. -/
def createLoop (cidOf : BlockHeader → Nat) :
    List BlockHeader → List BlockHeader → List Nat →
    Except TipsetError (List BlockHeader × List Nat)
  | [], blks, cids => .ok (blks, cids)
  | hdr :: rest, blks, cids =>
    match canExpandTipset blks hdr with
    | .error e => .error e
    | .ok _ =>
      match expandTipset blks cids (cidOf hdr) hdr with
      | .error e => .error e
      | .ok st => createLoop cidOf rest st.1 st.2

/-- A tipset: the key's cid list and the ordered block headers. -/
structure Tipset where
  cids : List Nat
  blks : List BlockHeader
deriving DecidableEq, Repr

/-- TipsetCreator::getTipset(clear = true): the default-constructed empty
Tipset when no block was accepted, the key over the accumulated cids
otherwise. -/
def creatorGetTipset (blks : List BlockHeader) (cids : List Nat) : Tipset :=
  match blks with
  | [] => ⟨[], []⟩
  | _ :: _ => ⟨cids, blks⟩

/-- Tipset::create(std::vector of BlockHeader). -/
def Tipset.create (cidOf : BlockHeader → Nat) (blocks : List BlockHeader) :
    Except TipsetError Tipset :=
  (createLoop cidOf blocks [] []).map fun st => creatorGetTipset st.1 st.2

/-- Tipset::height(): blks_[0].height, 0 for the empty tipset. -/
def Tipset.height (t : Tipset) : Nat :=
  match t.blks with
  | [] => 0
  | b :: _ => b.height

/-- Tipset::getParents(): blks[0].parents as a key, empty for the empty
tipset. -/
def Tipset.getParents (t : Tipset) : List Nat :=
  match t.blks with
  | [] => []
  | b :: _ => b.parents

/-- Tipset::getMinTimestamp(): the least block timestamp, 0 for the empty
tipset. -/
def Tipset.getMinTimestamp (t : Tipset) : Nat :=
  match t.blks with
  | [] => 0
  | b :: bs => bs.foldl (fun m x => min m x.timestamp) b.timestamp

/-- Tipset::getParentWeight(): blks[0].parent_weight, 0 for the empty
tipset. -/
def Tipset.getParentWeight (t : Tipset) : Int :=
  match t.blks with
  | [] => 0
  | b :: _ => b.parent_weight

/-- Tipset::getMinTicketBlock() reads blks[0] with no emptiness guard: it is
defined exactly when the tipset has a block. -/
def Tipset.getMinTicketBlock? (t : Tipset) : Option BlockHeader :=
  t.blks.head?

/-- Tipset::getParentStateRoot() reads blks[0] with no emptiness guard. -/
def Tipset.getParentStateRoot? (t : Tipset) : Option Nat :=
  t.blks.head?.map (·.parent_state_root)

/-- Tipset::getParentMessageReceipts() reads blks[0] with no emptiness
guard. -/
def Tipset.getParentMessageReceipts? (t : Tipset) : Option Nat :=
  t.blks.head?.map (·.parent_message_receipts)

/-- A demonstration header: ticket byte `tk`, height 10, no parents. -/
def demoHeader (tk : Nat) : BlockHeader :=
  ⟨0, some [tk], [], 0, 0, 0, 0, 10, 0⟩

/-- A demonstration cid function: the first ticket byte. -/
def demoCidOf (h : BlockHeader) : Nat := h.ticketBytes.headD 0


/-! API layer: core/api/make.cpp.  Tipsets on this layer are abstract
nodes carrying the fields the handlers read (height, parent state root and
an identity standing for the tipset's content); the parent chain, which the
store would resolve cid by cid, is passed as the list of ancestor nodes;
the interpreter is an opaque pure function of the tipset. -/

/-- Errors surfaced by the API handlers: the TodoError sentinel and a
failed Tipset::loadParent (store miss). -/
inductive ApiError
  | todoError
  | loadParentFailure
deriving DecidableEq, Repr

/-- An abstract tipset as the API layer sees it. -/
structure TsNode where
  height : Nat
  parentStateRoot : Nat
  ident : Nat
deriving DecidableEq, Repr

/-- vm::interpreter::Result: post-execution state root and receipts root. -/
structure InterpreterResult where
  state_root : Nat
  message_receipts : Nat
deriving DecidableEq, Repr

/-- TipsetContext: the tipset, the root its state tree reads from, and the
optional interpreter result. -/
structure TipsetContextM where
  tipset : TsNode
  stateRoot : Nat
  interpreted : Option InterpreterResult
deriving DecidableEq, Repr

/-- The tipsetContext lambda of makeImpl: state tree at the parent state
root, or (interpret = true) at the interpreter's post-execution root with
`interpreted` set. -/
def tipsetContextOf (interp : TsNode → InterpreterResult) (ts : TsNode)
    (interpret : Bool) : TipsetContextM :=
  if interpret then ⟨ts, (interp ts).state_root, some (interp ts)⟩
  else ⟨ts, ts.parentStateRoot, none⟩

/-- kWinningPoStSectorSetLookback = 10 epochs. -/
def kWinningPoStSectorSetLookback : Int := 10

/-- The while loop of getLookbackTipSetForRound: walk to the parent while
the height exceeds the lookback epoch; running out of parents is a failed
loadParent. -/
def lookbackWalk (lookback : Nat) (cur : TsNode) :
    List TsNode → Except ApiError TsNode
  | [] => if lookback < cur.height then .error .loadParentFailure else .ok cur
  | p :: rest =>
    if lookback < cur.height then lookbackWalk lookback p rest else .ok cur

/-- getLookbackTipSetForRound: lookback = max(0, epoch − 10); walk parents
to it, interpret the tipset reached and root the context's state tree at
the resulting state root.  The `interpreted` field is left empty (the
source builds the context with a default-initialized optional). -/
def getLookbackTipSetForRound (interp : TsNode → InterpreterResult)
    (epoch : Int) (ts : TsNode) (ancestors : List TsNode) :
    Except ApiError TipsetContextM :=
  match lookbackWalk ((max 0 (epoch - kWinningPoStSectorSetLookback)).toNat)
      ts ancestors with
  | .error e => .error e
  | .ok t => .ok ⟨t, (interp t).state_root, none⟩

/-- The while loop of ChainGetTipSetByHeight: while the height exceeds the
target, load the parent; stop before descending to a parent strictly below
the target.  Heights stand for the tipsets they belong to. -/
def walkByHeight (height : Nat) (cur : Nat) : List Nat → Except ApiError Nat
  | [] => if height < cur then .error .loadParentFailure else .ok cur
  | p :: rest =>
    if height < cur then
      if p < height then .ok cur else walkByHeight height p rest
    else .ok cur

/-- ChainGetTipSetByHeight: error below the resolved tipset's height is
requested from above (TodoError when the tipset is lower than the target),
else the parent walk. -/
def chainGetTipSetByHeight (height : Nat) (cur : Nat) (ancestors : List Nat) :
    Except ApiError Nat :=
  if cur < height then .error .todoError else walkByHeight height cur ancestors

/-- SectorInfo as filled by getSectorsForWinningPoSt: proof type, sector
number, sealed cid. -/
structure SectorInfo where
  win_type : Nat
  sector : Nat
  sealed_cid : Nat
deriving DecidableEq, Repr

/-- getSectorsForWinningPoSt: collect the proving set into `sectors`; when
non-empty, draw challenge indices and assemble the filtered `result` —
which the source then drops, returning the full `sectors` list.  The proof
type derivation and the challenge are opaque proof-library calls, passed in
as `winType` and `challenge`. -/
def getSectorsForWinningPoSt (winType : Nat) (provingSet : List (Nat × Nat))
    (challenge : Nat → List Nat) : List SectorInfo :=
  let sectors := provingSet.map fun p => ⟨winType, p.1, p.2⟩
  if sectors.isEmpty then sectors
  else
    let indices := challenge sectors.length
    let _result := indices.map fun i => sectors.getD i ⟨0, 0, 0⟩
    sectors

/-- Modelled from the spec: the documented winning-sector selection returns
`sectors[indices[i]]` in index order — the filtered subset, not the full
proving-set list. -/
def getSectorsForWinningPoStFiltered (winType : Nat)
    (provingSet : List (Nat × Nat)) (challenge : Nat → List Nat) :
    List SectorInfo :=
  let sectors : List SectorInfo := provingSet.map fun p => ⟨winType, p.1, p.2⟩
  if sectors.isEmpty then sectors
  else (challenge sectors.length).map fun i => sectors.getD i ⟨0, 0, 0⟩

/-- The two error channels a message application can fail on: a VM exit
code, or any other error. -/
inductive CallError
  | vmExit (code : Nat)
  | other (err : Nat)
deriving DecidableEq, Repr

/-- vm::isVMExitCode: whether the error is of the VM exit code category. -/
def isVMExitCode : CallError → Bool
  | .vmExit _ => true
  | .other _ => false

/-- MessageReceipt: exit code, return value, gas used. -/
structure MessageReceipt where
  exit_code : Nat
  return_value : List Nat
  gas_used : Nat
deriving DecidableEq, Repr

/-- VMExitCode::kOk. -/
def kOkExitCode : Nat := 0

/-- InvocResult: the message and its receipt.  The message is its cid. -/
structure InvocResult where
  message : Nat
  receipt : MessageReceipt
deriving DecidableEq, Repr

/-- StateCall: apply the message implicitly (the application's outcome is
`applyResult`); success gives receipt {Ok, value, 0}; a VM exit code is
normalized into receipt {code, empty, 0}; other errors propagate.  An exit
code the normalizer does not know trips a BOOST_ASSERT in the source; that
branch surfaces the original error here. -/
def stateCall (normalize : Nat → Option Nat) (message : Nat)
    (applyResult : Except CallError (List Nat)) :
    Except CallError InvocResult :=
  match applyResult with
  | .ok v => .ok ⟨message, ⟨kOkExitCode, v, 0⟩⟩
  | .error e =>
    if isVMExitCode e then
      match e with
      | .vmExit c =>
        match normalize c with
        | some c2 => .ok ⟨message, ⟨c2, [], 0⟩⟩
        | none => .error (.vmExit c)
      | .other x => .error (.other x)
    else .error e

/-- The store's decode errors as ChainGetMessage sees them. -/
inductive IpldError
  | notFound
  | decodeFailure
deriving DecidableEq, Repr

/-- An unsigned message (contents abstracted). -/
structure UnsignedMessage where
  dest : Nat
  nonce : Nat
deriving DecidableEq, Repr

/-- A signed message: the unsigned message and its signature. -/
structure SignedMessage where
  message : UnsignedMessage
  signature : Nat
deriving DecidableEq, Repr

/-- ChainGetMessage: try the stored bytes as a SignedMessage first and keep
only the inner message; on any decode error fall back to decoding an
UnsignedMessage.  The two decode outcomes of the store are passed in. -/
def chainGetMessage (signedRes : Except IpldError SignedMessage)
    (unsignedRes : Except IpldError UnsignedMessage) :
    Except IpldError UnsignedMessage :=
  match signedRes with
  | .ok sm => .ok sm.message
  | .error _ => unsignedRes

/-! Retrieval market query responder:
core/markets/retrieval/provider/query_responder/query_responder_impl.cpp. -/

/-- pieceio::PiecePayloadLocation; the responder only distinguishes
IPLD_STORE from the rest. -/
inductive PiecePayloadLocation
  | IPLD_STORE
  | SEALED_SECTOR
deriving DecidableEq, Repr

/-- QueryItemStatus of the retrieval protocol. -/
inductive QueryItemStatus
  | QueryItemAvailable
  | QueryItemUnavailable
  | QueryItemUnknown
deriving DecidableEq, Repr

/-- QueryResponderImpl::getItemStatus: unlocatable payload is Unavailable;
when a distinct piece cid is given and the payload is not in the IPLD
store, the located parent piece must be that piece cid; otherwise
Available.  `locate` is the piece locator's outcome for the payload:
(location, parent piece cid). -/
def getItemStatus (locate : Except Unit (PiecePayloadLocation × Nat))
    (payload_cid piece_cid : Nat) : QueryItemStatus :=
  match locate with
  | .error _ => .QueryItemUnavailable
  | .ok r =>
    if piece_cid ≠ payload_cid ∧ r.1 ≠ .IPLD_STORE then
      if r.2 ≠ piece_cid then .QueryItemUnavailable else .QueryItemAvailable
    else .QueryItemAvailable

/-- Modelled from the spec: `item_status` is Available iff the payload CID
is locatable and, whenever the specified piece CID differs from the payload
CID, it matches the parent piece reported by the piece locator. -/
def itemStatusSpec (locate : Except Unit (PiecePayloadLocation × Nat))
    (payload_cid piece_cid : Nat) : QueryItemStatus :=
  match locate with
  | .error _ => .QueryItemUnavailable
  | .ok r =>
    if piece_cid ≠ payload_cid ∧ r.2 ≠ piece_cid then .QueryItemUnavailable
    else .QueryItemAvailable


/-! Helper lemmas. -/

/-- The byte comparison answers `eq` exactly on equal byte strings. -/
lemma bytesCompare_eq_iff : ∀ a b : Bytes, bytesCompare a b = .eq ↔ a = b := by
  intro a
  induction a with
  | nil => intro b; cases b <;> simp [bytesCompare]
  | cons x xs ih =>
    intro b
    cases b with
    | nil => simp [bytesCompare]
    | cons y ys =>
      simp only [bytesCompare]
      by_cases h1 : x < y
      · simp [h1, Nat.ne_of_lt h1]
      · by_cases h2 : y < x
        · simp [h1, h2, (Nat.ne_of_lt h2).symm]
        · have hxy : x = y := Nat.le_antisymm (Nat.le_of_not_lt h2) (Nat.le_of_not_lt h1)
          simp [h1, h2, hxy, ih]

/-- A successful scan stops within the list. -/
lemma scanPos_ok_le : ∀ (t : Bytes) (l : List BlockHeader) (i : Nat),
    scanPos t l = .ok i → i ≤ l.length := by
  intro t l
  induction l with
  | nil => intro i h; simp [scanPos] at h; omega
  | cons b bs ih =>
    intro i h
    simp only [scanPos] at h
    cases hc : bytesCompare t b.ticketBytes <;> rw [hc] at h
    · cases hs : scanPos t bs <;> rw [hs] at h <;> simp [Except.map] at h
      subst h
      have := ih _ hs
      simp
      omega
    · simp at h
    · simp at h; omega

/-- The scan fails only with a ticket collision. -/
lemma scanPos_error_eq : ∀ (t : Bytes) (l : List BlockHeader) (e : TipsetError),
    scanPos t l = .error e → e = .TICKETS_COLLISION := by
  intro t l
  induction l with
  | nil => intro e h; simp [scanPos] at h
  | cons b bs ih =>
    intro e h
    simp only [scanPos] at h
    cases hc : bytesCompare t b.ticketBytes <;> rw [hc] at h
    · cases hs : scanPos t bs with
      | ok v => rw [hs] at h; simp [Except.map] at h
      | error a =>
        rw [hs] at h
        simp only [Except.map, Except.error.injEq] at h
        exact h ▸ ih a hs
    · simp at h; exact h.symm
    · simp at h

/-- The scan succeeds when the new ticket collides with no stored one. -/
lemma scanPos_ok_of_ne : ∀ (t : Bytes) (l : List BlockHeader),
    (∀ b ∈ l, bytesCompare t b.ticketBytes ≠ .eq) →
    ∃ i, scanPos t l = .ok i := by
  intro t l
  induction l with
  | nil => intro _; exact ⟨0, rfl⟩
  | cons b bs ih =>
    intro hne
    have hb := hne b (by simp)
    cases hc : bytesCompare t b.ticketBytes
    · obtain ⟨i, hi⟩ := ih fun x hx => hne x (by simp [hx])
      exact ⟨i + 1, by simp [scanPos, hc, hi, Except.map]⟩
    · exact absurd hc hb
    · exact ⟨0, by simp [scanPos, hc]⟩

/-- The expansion fails only with a ticket collision. -/
lemma expandTipset_error_eq : ∀ (blks : List BlockHeader) (cids : List Nat)
    (cid : Nat) (hdr : BlockHeader) (e : TipsetError),
    expandTipset blks cids cid hdr = .error e → e = .TICKETS_COLLISION := by
  intro blks cids cid hdr e h
  cases blks with
  | nil => simp [expandTipset] at h
  | cons b bs =>
    simp only [expandTipset] at h
    cases hs : scanPos hdr.ticketBytes (b :: bs) with
    | ok i =>
      rw [hs] at h
      split at h
      · simp_all
      · split_ifs at h
    | error a =>
      rw [hs] at h
      simp only [Except.error.injEq] at h
      exact h ▸ scanPos_error_eq _ _ a hs

/-- A collision-free expansion succeeds, adds exactly the new header, and
keeps only headers that were already present or are the new one. -/
lemma expandTipset_ok (blks : List BlockHeader) (cids : List Nat) (cid : Nat)
    (hdr : BlockHeader)
    (hne : ∀ b ∈ blks, bytesCompare hdr.ticketBytes b.ticketBytes ≠ .eq) :
    ∃ blks2 cids2, expandTipset blks cids cid hdr = .ok (blks2, cids2) ∧
      blks2.length = blks.length + 1 ∧
      ∀ b ∈ blks2, b = hdr ∨ b ∈ blks := by
  cases blks with
  | nil => exact ⟨[hdr], [cid], rfl, rfl, by simp⟩
  | cons x xs =>
    obtain ⟨i, hi⟩ := scanPos_ok_of_ne hdr.ticketBytes (x :: xs) hne
    have hle : i ≤ (x :: xs).length := scanPos_ok_le _ _ _ hi
    by_cases hbr : i + 1 = (x :: xs).length
    · refine ⟨x :: xs ++ [hdr], cids ++ [cid], ?_, ?_, ?_⟩
      · simp [expandTipset, hi, hbr]
      · simp
      · intro b hb
        rcases List.mem_append.mp hb with hb | hb
        · exact .inr hb
        · simp at hb; exact .inl hb
    · have hbr2 : ¬i = xs.length := fun hh => hbr (by simp [hh])
      refine ⟨(x :: xs).insertIdx i hdr, cids.insertIdx i cid, ?_, ?_, ?_⟩
      · simp [expandTipset, hi, hbr2]
      · exact List.length_insertIdx i _ hle
      · intro b hb
        exact (List.mem_insertIdx hle).mp hb

/-- canExpandTipset fails with a mismatch or a missing ticket, never with
NO_BLOCKS. -/
lemma canExpandTipset_error_ne : ∀ (blks : List BlockHeader)
    (hdr : BlockHeader) (e : TipsetError),
    canExpandTipset blks hdr = .error e → e ≠ .NO_BLOCKS := by
  intro blks hdr e h
  cases blks with
  | nil => simp [canExpandTipset] at h
  | cons first rest =>
    simp only [canExpandTipset] at h
    split_ifs at h <;>
      simp only [Except.error.injEq] at h <;> subst h <;> decide

/-- canExpandTipset accepts a header that carries a ticket and agrees with
every stored header on height and parents. -/
lemma canExpandTipset_ok (blks : List BlockHeader) (hdr : BlockHeader)
    (h0 : Nat) (p0 : List Nat)
    (hticket : hdr.ticket.isSome)
    (hall : ∀ b ∈ blks, b.height = h0 ∧ b.parents = p0)
    (hh : hdr.height = h0) (hp : hdr.parents = p0) :
    canExpandTipset blks hdr = .ok () := by
  cases blks with
  | nil => rfl
  | cons first rest =>
    have hf := hall first (by simp)
    have : hdr.ticket.isNone = false := by
      cases ht : hdr.ticket
      · rw [ht] at hticket; simp at hticket
      · rfl
    simp [canExpandTipset, this, hh, hp, hf.1, hf.2]

/-- The creation loop never fails with NO_BLOCKS: its errors come from
canExpandTipset (mismatches, missing ticket) or the scan (collision). -/
lemma createLoop_error_ne (cidOf : BlockHeader → Nat) :
    ∀ (rest blks : List BlockHeader) (cids : List Nat) (e : TipsetError),
    createLoop cidOf rest blks cids = .error e → e ≠ .NO_BLOCKS := by
  intro rest
  induction rest with
  | nil => intro blks cids e h; simp [createLoop] at h
  | cons hdr rest2 ih =>
    intro blks cids e h
    simp only [createLoop] at h
    cases hc : canExpandTipset blks hdr with
    | error e1 =>
      rw [hc] at h
      simp only [Except.error.injEq] at h
      exact h ▸ canExpandTipset_error_ne blks hdr e1 hc
    | ok u =>
      rw [hc] at h
      cases he : expandTipset blks cids (cidOf hdr) hdr with
      | error e2 =>
        rw [he] at h
        simp only [Except.error.injEq] at h
        have : e2 = .TICKETS_COLLISION := expandTipset_error_eq _ _ _ _ _ he
        subst this
        exact h ▸ (by decide)
      | ok st =>
        rw [he] at h
        exact ih st.1 st.2 e h

/-- On a batch of headers carrying tickets, agreeing on height and parents
and with pairwise distinct tickets, the creation loop succeeds, the block
count adds up, and every accumulated header is an input. -/
lemma createLoop_ok (cidOf : BlockHeader → Nat) (h0 : Nat) (p0 : List Nat) :
    ∀ (rest blks : List BlockHeader) (cids : List Nat),
    (∀ b ∈ blks, b.height = h0 ∧ b.parents = p0) →
    (∀ b ∈ rest, b.ticket.isSome ∧ b.height = h0 ∧ b.parents = p0) →
    (∀ a ∈ blks, ∀ b ∈ rest, a.ticketBytes ≠ b.ticketBytes) →
    rest.Pairwise (fun a b => a.ticketBytes ≠ b.ticketBytes) →
    ∃ blks2 cids2, createLoop cidOf rest blks cids = .ok (blks2, cids2) ∧
      blks2.length = blks.length + rest.length ∧
      ∀ b ∈ blks2, b ∈ blks ∨ b ∈ rest := by
  intro rest
  induction rest with
  | nil =>
    intro blks cids _ _ _ _
    exact ⟨blks, cids, rfl, rfl, fun b hb => .inl hb⟩
  | cons hdr rest2 ih =>
    intro blks cids hblks hrest hcross hpw
    have hhdr := hrest hdr (by simp)
    have hc : canExpandTipset blks hdr = .ok () :=
      canExpandTipset_ok blks hdr h0 p0 hhdr.1 hblks hhdr.2.1 hhdr.2.2
    have hne : ∀ b ∈ blks, bytesCompare hdr.ticketBytes b.ticketBytes ≠ .eq := by
      intro b hb heq
      have := (bytesCompare_eq_iff _ _).mp heq
      exact hcross b hb hdr (by simp) this.symm
    obtain ⟨blks2, cids2, he, hlen, hmem⟩ :=
      expandTipset_ok blks cids (cidOf hdr) hdr hne
    have hpw2 := List.pairwise_cons.mp hpw
    obtain ⟨blks3, cids3, hl, hlen3, hmem3⟩ :=
      ih blks2 cids2
        (fun b hb => (hmem b hb).elim
          (fun h => h ▸ ⟨hhdr.2.1, hhdr.2.2⟩)
          (fun h => hblks b h))
        (fun b hb => hrest b (by simp [hb]))
        (fun a ha b hb => (hmem a ha).elim
          (fun h => h ▸ hpw2.1 b hb)
          (fun h => hcross a h b (by simp [hb])))
        hpw2.2
    refine ⟨blks3, cids3, ?_, ?_, ?_⟩
    · simp only [createLoop, hc, he]
      exact hl
    · rw [hlen3, hlen]
      simp [Nat.add_assoc, Nat.add_comm 1 rest2.length]
    · intro b hb
      rcases hmem3 b hb with hb2 | hb2
      · rcases hmem b hb2 with hb3 | hb3
        · exact .inr (by simp [hb3])
        · exact .inl hb3
      · exact .inr (by simp [hb2])

/-- The lookback walk lands on the first node of the chain at or below the
lookback epoch, and fails exactly when there is none. -/
lemma lookbackWalk_eq_find (lb : Nat) :
    ∀ (anc : List TsNode) (cur : TsNode),
    lookbackWalk lb cur anc =
      match (cur :: anc).find? (fun t => decide (t.height ≤ lb)) with
      | some t => .ok t
      | none => .error .loadParentFailure := by
  intro anc
  induction anc with
  | nil =>
    intro cur
    by_cases h : lb < cur.height
    · have : (decide (cur.height ≤ lb)) = false := by simp; omega
      simp [lookbackWalk, h, List.find?, this]
    · have : (decide (cur.height ≤ lb)) = true := by simp; omega
      simp [lookbackWalk, h, List.find?, this]
  | cons p rest ih =>
    intro cur
    by_cases h : lb < cur.height
    · have hd : (decide (cur.height ≤ lb)) = false := by simp; omega
      rw [lookbackWalk, if_pos h, ih p]
      conv_rhs => rw [List.find?, hd]
    · have hd : (decide (cur.height ≤ lb)) = true := by simp; omega
      rw [lookbackWalk, if_neg h]
      conv_rhs => rw [List.find?, hd]

/-- The ChainGetTipSetByHeight walk: on a strictly descending chain that
reaches the target or below, it returns the lowest node still at or above
the target. -/
lemma walkByHeight_ok (height : Nat) :
    ∀ (anc : List Nat) (cur : Nat),
    (cur :: anc).Pairwise (fun a b => b < a) →
    (∃ m, m ∈ cur :: anc ∧ m ≤ height) →
    height ≤ cur →
    ∃ r, walkByHeight height cur anc = .ok r ∧ r ∈ cur :: anc ∧ height ≤ r ∧
      ∀ x ∈ cur :: anc, height ≤ x → r ≤ x := by
  intro anc
  induction anc with
  | nil =>
    intro cur _ hm hc
    obtain ⟨m, hm1, hm2⟩ := hm
    have hme : m = cur := by simpa using hm1
    have hcur : cur = height := by omega
    refine ⟨cur, ?_, by simp, hc, ?_⟩
    · simp [walkByHeight, hcur]
    · intro x hx _
      simp at hx
      omega
  | cons p rest ih =>
    intro cur hpw hm hc
    have hpw1 := List.pairwise_cons.mp hpw
    have hcp : p < cur := hpw1.1 p (by simp)
    by_cases hcur : height < cur
    · by_cases hp : p < height
      · -- break before descending: cur is the last node at or above height
        refine ⟨cur, ?_, by simp, hc, ?_⟩
        · simp [walkByHeight, hcur, hp]
        · intro x hx hhx
          rcases List.mem_cons.mp hx with hx | hx
          · omega
          · -- every node after cur is at most p, hence below height
            have : x ≤ p := by
              rcases List.mem_cons.mp hx with hx2 | hx2
              · omega
              · have := (List.pairwise_cons.mp hpw1.2).1 x hx2
                omega
            omega
      · -- descend to p
        have hhp : height ≤ p := Nat.le_of_not_lt hp
        obtain ⟨m, hm1, hm2⟩ := hm
        have hm3 : m ∈ p :: rest := by
          rcases List.mem_cons.mp hm1 with h | h
          · omega
          · exact h
        obtain ⟨r, hr1, hr2, hr3, hr4⟩ := ih p hpw1.2 ⟨m, hm3, hm2⟩ hhp
        refine ⟨r, ?_, by simp [List.mem_cons.mp hr2], hr3, ?_⟩
        · simp [walkByHeight, hcur, hp, hr1]
        · intro x hx hhx
          rcases List.mem_cons.mp hx with hx | hx
          · have : r ≤ p := by
              rcases List.mem_cons.mp hr2 with h | h
              · omega
              · have := (List.pairwise_cons.mp hpw1.2).1 r h
                omega
            omega
          · exact hr4 x hx hhx
    · -- already at the target height
      have : cur = height := Nat.le_antisymm (Nat.le_of_not_lt hcur) hc
      subst this
      refine ⟨cur, ?_, by simp, le_refl _, ?_⟩
      · simp [walkByHeight, hcur]
      · intro x _ hhx; omega

/-! The claims. -/

/-- Claim C1: the spec asserts that Tipset::create sorts blocks strictly
ascending by ticket regardless of the input order, so that two headers with
tickets 0x01 and 0x02 yield [b1, b2] from either input order.  Evaluating
the embedded creator shows otherwise: with the 0x02 header first, the
insertion loop of expandTipset places the smaller ticket AFTER the larger
one, so create([b2, b1]) keeps [b2, b1] — whose first adjacent pair
compares `gt`, not `lt` — while create([b1, b2]) yields [b1, b2]: the
result depends on the input order and is not ascending. -/
theorem tipsetCreate_order_bug :
    Tipset.create demoCidOf [demoHeader 2, demoHeader 1] =
      .ok ⟨[2, 1], [demoHeader 2, demoHeader 1]⟩ ∧
    Tipset.create demoCidOf [demoHeader 1, demoHeader 2] =
      .ok ⟨[1, 2], [demoHeader 1, demoHeader 2]⟩ ∧
    bytesCompare (demoHeader 2).ticketBytes (demoHeader 1).ticketBytes =
      .gt :=
  ⟨rfl, rfl, rfl⟩

/-- Claim C2: the spec's winning-sector selection returns the sectors at
the challenge indices; the source builds that filtered list but returns the
full proving-set list.  At a two-sector proving set with challenge index
[1], the embedded source function returns both sectors while the
documented selection returns only the second. -/
theorem getSectorsForWinningPoSt_bug :
    getSectorsForWinningPoSt 5 [(1, 10), (2, 20)] (fun _ => [1]) =
      [⟨5, 1, 10⟩, ⟨5, 2, 20⟩] ∧
    getSectorsForWinningPoStFiltered 5 [(1, 10), (2, 20)] (fun _ => [1]) =
      [⟨5, 2, 20⟩] :=
  ⟨rfl, rfl⟩

/-- Claim C3: ChainGetTipSetByHeight errors (TodoError) when the resolved
tipset is below the target height; otherwise, on a strictly descending
parent chain reaching the target or below, it returns the last tipset whose
height is at least the target (the one all other such tipsets exceed), and
on the chain of heights [10, 7, 5, 2] a request for height 6 returns the
height-7 tipset while a request for 11 errors. -/
theorem chainGetTipSetByHeight_spec :
    (∀ (height cur : Nat) (anc : List Nat), cur < height →
      chainGetTipSetByHeight height cur anc = .error .todoError) ∧
    (∀ (height cur : Nat) (anc : List Nat),
      (cur :: anc).Pairwise (fun a b => b < a) →
      (∃ m, m ∈ cur :: anc ∧ m ≤ height) →
      height ≤ cur →
      ∃ r, chainGetTipSetByHeight height cur anc = .ok r ∧
        r ∈ cur :: anc ∧ height ≤ r ∧
        ∀ x ∈ cur :: anc, height ≤ x → r ≤ x) ∧
    chainGetTipSetByHeight 6 10 [7, 5, 2] = .ok 7 ∧
    chainGetTipSetByHeight 11 10 [7, 5, 2] = .error .todoError := by
  refine ⟨?_, ?_, rfl, rfl⟩
  · intro height cur anc h
    simp [chainGetTipSetByHeight, h]
  · intro height cur anc hpw hm hc
    have hlt : ¬cur < height := Nat.not_lt.mpr hc
    obtain ⟨r, hr⟩ := walkByHeight_ok height anc cur hpw hm hc
    exact ⟨r, by simpa [chainGetTipSetByHeight, hlt] using hr⟩

/-- Claim C4, counterexample: Tipset::create on an empty header vector does
not return NO_BLOCKS — it succeeds and yields the empty sentinel tipset. -/
theorem tipsetCreate_empty_counterexample :
    Tipset.create demoCidOf [] = .ok ⟨[], []⟩ :=
  rfl

/-- Claim C4 as amended: Tipset::create(headers) never returns NO_BLOCKS;
on an empty input it succeeds with the empty sentinel tipset; on every
non-empty valid input (all tickets present, equal heights, equal parents,
pairwise distinct tickets) it succeeds with a non-empty tipset. -/
theorem tipsetCreate_amended :
    (∀ cidOf : BlockHeader → Nat, Tipset.create cidOf [] = .ok ⟨[], []⟩) ∧
    (∀ (cidOf : BlockHeader → Nat) (blocks : List BlockHeader),
      Tipset.create cidOf blocks ≠ .error .NO_BLOCKS) ∧
    (∀ (cidOf : BlockHeader → Nat) (first : BlockHeader)
        (rest : List BlockHeader),
      (∀ b ∈ first :: rest,
        b.ticket.isSome ∧ b.height = first.height ∧
          b.parents = first.parents) →
      (first :: rest).Pairwise (fun a b => a.ticketBytes ≠ b.ticketBytes) →
      ∃ t, Tipset.create cidOf (first :: rest) = .ok t ∧ t.blks ≠ []) := by
  refine ⟨fun _ => rfl, ?_, ?_⟩
  · intro cidOf blocks h
    unfold Tipset.create at h
    cases hl : createLoop cidOf blocks [] [] with
    | ok st => rw [hl] at h; simp [Except.map] at h
    | error e =>
      rw [hl] at h
      simp only [Except.map, Except.error.injEq] at h
      exact createLoop_error_ne cidOf blocks [] [] e hl (h ▸ rfl)
  · intro cidOf first rest hvalid hpw
    obtain ⟨blks2, cids2, hl, hlen, _⟩ :=
      createLoop_ok cidOf first.height first.parents (first :: rest) [] []
        (by simp) hvalid (by simp) hpw
    have hne : blks2 ≠ [] := by
      intro hempty
      rw [hempty] at hlen
      simp at hlen
    refine ⟨creatorGetTipset blks2 cids2, ?_, ?_⟩
    · simp [Tipset.create, hl, Except.map]
    · cases hb : blks2 with
      | nil => exact absurd hb hne
      | cons x xs => simp [creatorGetTipset, hb]

/-- Claim C5: getLookbackTipSetForRound returns the first tipset along the
parent chain whose height is at most max(0, epoch − 10), with the context's
state tree rooted at the interpreter's post-execution state root for that
tipset (and fails only when no tipset of the chain is that low); on a
concrete chain 12 → 9 at epoch 20 it lands on the height-9 tipset with the
interpreter's root for it. -/
theorem getLookbackTipSetForRound_spec :
    (∀ (interp : TsNode → InterpreterResult) (epoch : Int) (ts : TsNode)
        (ancestors : List TsNode),
      getLookbackTipSetForRound interp epoch ts ancestors =
        match (ts :: ancestors).find?
            (fun t => decide (t.height ≤
              (max 0 (epoch - kWinningPoStSectorSetLookback)).toNat)) with
        | some t => .ok ⟨t, (interp t).state_root, none⟩
        | none => .error .loadParentFailure) ∧
    getLookbackTipSetForRound (fun t => ⟨t.ident, 0⟩) 20 ⟨12, 1, 2⟩
        [⟨9, 3, 4⟩] =
      .ok ⟨⟨9, 3, 4⟩, 4, none⟩ := by
  refine ⟨?_, rfl⟩
  intro interp epoch ts ancestors
  unfold getLookbackTipSetForRound
  rw [lookbackWalk_eq_find]
  cases (ts :: ancestors).find?
      (fun t => decide (t.height ≤
        (max 0 (epoch - kWinningPoStSectorSetLookback)).toNat)) <;> rfl

/-- Claim C6: StateCall turns a successful implicit application into the
receipt {Ok, value, 0}, a VM-exit-code failure with a normalizable code
into the receipt {normalized code, empty, 0}, and propagates every failure
that is not a VM exit code unchanged. -/
theorem stateCall_spec :
    (∀ (normalize : Nat → Option Nat) (msg : Nat) (v : List Nat),
      stateCall normalize msg (.ok v) = .ok ⟨msg, ⟨kOkExitCode, v, 0⟩⟩) ∧
    (∀ (normalize : Nat → Option Nat) (msg c c2 : Nat),
      normalize c = some c2 →
        stateCall normalize msg (.error (.vmExit c)) =
          .ok ⟨msg, ⟨c2, [], 0⟩⟩) ∧
    (∀ (normalize : Nat → Option Nat) (msg : Nat) (e : CallError),
      isVMExitCode e = false →
        stateCall normalize msg (.error e) = .error e) := by
  refine ⟨fun _ _ _ => rfl, ?_, ?_⟩
  · intro normalize msg c c2 h
    simp [stateCall, isVMExitCode, h]
  · intro normalize msg e h
    cases e with
    | vmExit c => simp [isVMExitCode] at h
    | other x => rfl

/-- Claim C7, counterexample: the context built by the mining lookback has
its state tree rooted at the interpreter's post-execution root (7, while
the tipset's parent state root is 5) yet its `interpreted` field is absent,
refuting the claimed equivalence for every context the core produces. -/
theorem lookbackContext_counterexample :
    getLookbackTipSetForRound (fun t => ⟨t.ident, 0⟩) 0 ⟨0, 5, 7⟩ [] =
      .ok ⟨⟨0, 5, 7⟩, 7, none⟩ ∧
    (TsNode.mk 0 5 7).parentStateRoot ≠ 7 := by
  exact ⟨rfl, by decide⟩

/-- Claim C7 as amended: for contexts built by tipsetContext, `interpreted`
is present exactly when interpretation was requested, and then the state
tree is rooted at the interpreter's post-execution root (at the parent
state root otherwise); the contexts built by getLookbackTipSetForRound are
rooted at the post-execution root but leave `interpreted` absent. -/
theorem tipsetContext_interpreted_spec :
    (∀ (interp : TsNode → InterpreterResult) (ts : TsNode),
      (tipsetContextOf interp ts true).interpreted = some (interp ts) ∧
      (tipsetContextOf interp ts true).stateRoot = (interp ts).state_root ∧
      (tipsetContextOf interp ts false).interpreted = none ∧
      (tipsetContextOf interp ts false).stateRoot = ts.parentStateRoot) ∧
    (∀ (interp : TsNode → InterpreterResult) (epoch : Int) (ts : TsNode)
        (anc : List TsNode) (ctx : TipsetContextM),
      getLookbackTipSetForRound interp epoch ts anc = .ok ctx →
        ctx.interpreted = none ∧
          ctx.stateRoot = (interp ctx.tipset).state_root) := by
  refine ⟨fun interp ts => ⟨rfl, rfl, rfl, rfl⟩, ?_⟩
  intro interp epoch ts anc ctx h
  unfold getLookbackTipSetForRound at h
  cases hw : lookbackWalk
      (max 0 (epoch - kWinningPoStSectorSetLookback)).toNat ts anc with
  | error e => rw [hw] at h; simp at h
  | ok t =>
    rw [hw] at h
    simp only [Except.ok.injEq] at h
    rw [← h]
    exact ⟨rfl, rfl⟩

/-- Claim C8, counterexample: with the payload located in the IPLD store
(parent piece 99) and a specified piece cid 2 different from both the
payload cid 1 and the reported parent piece, the source answers Available,
while the spec sentence — which omits the IPLD-store escape — demands
Unavailable. -/
theorem getItemStatus_counterexample :
    getItemStatus (.ok (.IPLD_STORE, 99)) 1 2 = .QueryItemAvailable ∧
    itemStatusSpec (.ok (.IPLD_STORE, 99)) 1 2 = .QueryItemUnavailable := by
  exact ⟨by decide, by decide⟩

/-- Claim C8 as amended: the item status is Available iff the payload CID
is locatable and, whenever the specified piece CID differs from the payload
CID AND the payload is not located in the IPLD store, the piece CID equals
the parent piece reported by the locator; otherwise Unavailable. -/
theorem getItemStatus_amended :
    ∀ (locate : Except Unit (PiecePayloadLocation × Nat))
      (payload piece : Nat),
    getItemStatus locate payload piece = .QueryItemAvailable ↔
      ∃ loc parent, locate = .ok (loc, parent) ∧
        (piece ≠ payload ∧ loc ≠ .IPLD_STORE → parent = piece) := by
  intro locate payload piece
  cases locate with
  | error e => simp [getItemStatus]
  | ok r =>
    obtain ⟨loc, parent⟩ := r
    simp only [getItemStatus]
    constructor
    · intro h
      refine ⟨loc, parent, rfl, ?_⟩
      intro hcond
      by_contra hne
      simp [hcond, hne] at h
    · intro h
      obtain ⟨loc2, parent2, heq, himp⟩ := h
      simp only [Except.ok.injEq, Prod.mk.injEq] at heq
      obtain ⟨h1, h2⟩ := heq
      subst h1; subst h2
      by_cases hcond : piece ≠ payload ∧ loc ≠ PiecePayloadLocation.IPLD_STORE
      · simp [hcond, himp hcond]
      · simp [hcond]

/-- Claim C9: on the empty tipset the guarded accessors answer their
defaults — height 0, min timestamp 0, parent weight 0, empty parent key —
while getParentStateRoot, getParentMessageReceipts and getMinTicketBlock,
which index blks[0] unguarded in the source, are defined exactly when the
tipset has at least one block. -/
theorem tipset_empty_accessors :
    (∀ cids : List Nat,
      Tipset.height ⟨cids, []⟩ = 0 ∧
      Tipset.getMinTimestamp ⟨cids, []⟩ = 0 ∧
      Tipset.getParentWeight ⟨cids, []⟩ = 0 ∧
      Tipset.getParents ⟨cids, []⟩ = []) ∧
    (∀ t : Tipset,
      (t.getParentStateRoot?).isSome = !t.blks.isEmpty ∧
      (t.getParentMessageReceipts?).isSome = !t.blks.isEmpty ∧
      (t.getMinTicketBlock?).isSome = !t.blks.isEmpty) := by
  refine ⟨fun cids => ⟨rfl, rfl, rfl, rfl⟩, ?_⟩
  intro t
  obtain ⟨cids, blks⟩ := t
  cases blks <;>
    simp [Tipset.getParentStateRoot?, Tipset.getParentMessageReceipts?,
      Tipset.getMinTicketBlock?]

/-- Claim C10: ChainGetMessage returns the inner unsigned message whenever
the bytes decode as a SignedMessage, falls back to the UnsignedMessage
decode exactly when they do not, and fails only when both decodings
fail. -/
theorem chainGetMessage_spec :
    (∀ (sm : SignedMessage) (ur : Except IpldError UnsignedMessage),
      chainGetMessage (.ok sm) ur = .ok sm.message) ∧
    (∀ (e : IpldError) (ur : Except IpldError UnsignedMessage),
      chainGetMessage (.error e) ur = ur) ∧
    (∀ (sr : Except IpldError SignedMessage)
        (ur : Except IpldError UnsignedMessage) (e2 : IpldError),
      chainGetMessage sr ur = .error e2 →
        (∃ e1, sr = .error e1) ∧ ur = .error e2) := by
  refine ⟨fun _ _ => rfl, fun _ _ => rfl, ?_⟩
  intro sr ur e2 h
  cases sr with
  | ok sm => simp [chainGetMessage] at h
  | error e1 => exact ⟨⟨e1, rfl⟩, h⟩
